import Mathlib

/-!
Verification of the classification engine of the `extra-forever` repository.

The embedding is shallow: the data model of `models.py` becomes Lean
structures, the pure classification strategies of
`app/services/classification/strategies.py` become Lean functions, and the
orchestrator plus its SQLAlchemy persistence
(`app/services/classification/classification_service.py`) becomes explicit
state passing over a `DB` record.  Fallible Python code (raising
`ValueError`) is modelled with `Except String`.

Numeric modelling: Python floats are modelled as exact rationals (`ℚ`).
The cosine-similarity kernel of `EmbeddingSimilarityStrategy` (NumPy
normalisation + dot product, which needs square roots) is abstracted as a
parameter `simFn`; every property verified here concerns the ranking,
filtering, truncation and persistence pipeline, which is proved for every
similarity function.  The external LLM provider call
(`self._agent.run_sync(prompt)`) is modelled by a `respond` function
producing the structured decision list the provider returns.
-/

namespace ExtraForever

/-- `models.py Category`: integer primary key, unique name, description,
optional embedding vector (stored as JSON). -/
structure Category where
  id : Int
  name : String
  description : String
  embedding : Option (List ℚ)
deriving Repr, DecidableEq, Inhabited

/-- `models.py Message`: string primary key, subject, sender, recipient
list, optional snippet/body/date, optional embedding vector. -/
structure Message where
  id : String
  subject : String
  sender : String
  «to» : List String
  snippet : Option String := none
  body : Option String := none
  date : Option String := none
  embedding : Option (List ℚ) := none
deriving Repr, DecidableEq, Inhabited

/-- `strategies.py ClassificationMatch`: transient (category, score,
explanation) triple produced by a strategy run. -/
structure ClassificationMatch where
  category : Category
  score : ℚ
  explanation : String
deriving Repr, DecidableEq, Inhabited

/-- Python truthiness of an optional embedding list: `if not
message.embedding` and `if cat.embedding` treat both `None` and the empty
list `[]` as absent. -/
def embTruthy : Option (List ℚ) → Bool
  | none => false
  | some l => !l.isEmpty

/-- Round the fraction `n / d` (with `d > 0`) to the nearest integer, ties
to even — the rounding used by Python `format(x, ".4f")`.  `f` is the
floor and `r` the remainder, obtained by integer floor division so that
the definition computes by kernel reduction (the `Rat` field operations
are marked irreducible). -/
def roundHalfEven (n d : Int) : Int :=
  let f := Int.fdiv n d
  let r := n - f * d
  if 2 * r < d then f
  else if d < 2 * r then f + 1
  else if f % 2 = 0 then f else f + 1

/-- Python fixed-point formatting `f"{q:.pf}"`: round `q·10^p` — that is,
`(q.num·10^p) / q.den` — to the nearest integer (half to even) and render
with exactly `p` fractional digits. -/
def formatFixed (p : ℕ) (q : ℚ) : String :=
  let n := roundHalfEven (q.num * ((10 : ℕ) ^ p : ℕ)) (q.den : Int)
  let sign := if n < 0 then "-" else ""
  let m := n.natAbs
  let ip := m / 10 ^ p
  let fp := m % 10 ^ p
  let fpStr := toString fp
  let pad := String.mk (List.replicate (p - fpStr.length) '0')
  if p = 0 then sign ++ toString ip
  else sign ++ toString ip ++ "." ++ pad ++ fpStr

/-- The deterministic explanation template of
`EmbeddingSimilarityStrategy.classify` (strategies.py lines 102-105):
`f"Message {message.id} embeddings exceed {threshold:.2f} similarity
threshold for category '{category.name}' with score {score:.4f}"`. -/
def mkExplanation (messageId : String) (threshold : ℚ) (categoryName : String)
    (score : ℚ) : String :=
  "Message " ++ messageId ++ " embeddings exceed " ++ formatFixed 2 threshold ++
    " similarity threshold for category \x27" ++ categoryName ++
    "\x27 with score " ++ formatFixed 4 score

/-- The comparison implemented by `np.argsort` on the index list: ascending
similarity, with equal similarities kept in their original index order
(NumPy leaves equal elements in place on these inputs; the position
tie-break makes that explicit). -/
def argLe (sims : List ℚ) (i j : ℕ) : Prop :=
  sims.getD i 0 < sims.getD j 0 ∨ (sims.getD i 0 = sims.getD j 0 ∧ i ≤ j)

instance (sims : List ℚ) : DecidableRel (argLe sims) := fun i j =>
  decidable_of_iff (sims.getD i 0 < sims.getD j 0 ∨ (sims.getD i 0 = sims.getD j 0 ∧ i ≤ j))
    Iff.rfl

instance (sims : List ℚ) : IsTotal ℕ (argLe sims) := by
  constructor
  intro i j
  rcases lt_trichotomy (sims.getD i 0) (sims.getD j 0) with h | h | h
  · exact Or.inl (Or.inl h)
  · rcases Nat.le_total i j with hij | hij
    · exact Or.inl (Or.inr ⟨h, hij⟩)
    · exact Or.inr (Or.inr ⟨h.symm, hij⟩)
  · exact Or.inr (Or.inl h)

instance (sims : List ℚ) : IsTrans ℕ (argLe sims) := by
  constructor
  intro i j k hij hjk
  rcases hij with h | ⟨he, hi⟩
  · rcases hjk with h' | ⟨he', _⟩
    · exact Or.inl (h.trans h')
    · exact Or.inl (he' ▸ h)
  · rcases hjk with h' | ⟨he', hj⟩
    · exact Or.inl (he ▸ h')
    · exact Or.inr ⟨he.trans he', hi.trans hj⟩

/-- `np.argsort(similarities)` (strategies.py line 93): the list of indices
`0, …, n-1` reordered so that the similarities ascend. -/
def argsortAsc (sims : List ℚ) : List ℕ :=
  List.insertionSort (argLe sims) (List.range sims.length)

/-- `sorted_indices = np.argsort(similarities)[::-1]` (strategies.py line 93). -/
def sortedIndices (sims : List ℚ) : List ℕ :=
  (argsortAsc sims).reverse

/-- The accumulation loop of `EmbeddingSimilarityStrategy.classify`
(strategies.py lines 96-108): walk `sorted_indices`, appending a match
whenever the similarity meets the threshold and fewer than `top_n` matches
have been collected.  `k` is `len(matches)` so far. -/
def mkEmbMatch (messageId : String) (threshold : ℚ) (cats : List Category)
    (sims : List ℚ) (idx : ℕ) : ClassificationMatch :=
  { category := cats.getD idx default
    score := sims.getD idx 0
    explanation := mkExplanation messageId threshold (cats.getD idx default).name
      (sims.getD idx 0) }

def collectMatches (messageId : String) (threshold : ℚ) (top_n : ℕ)
    (cats : List Category) (sims : List ℚ) : List ℕ → ℕ → List ClassificationMatch
  | [], _ => []
  | idx :: rest, k =>
    if threshold ≤ sims.getD idx 0 ∧ k < top_n then
      mkEmbMatch messageId threshold cats sims idx ::
        collectMatches messageId threshold top_n cats sims rest (k + 1)
    else
      collectMatches messageId threshold top_n cats sims rest k

/-- The comprehension `[cat for cat in categories if cat.embedding]`
(strategies.py line 73 and classification_service.py line 88). -/
def categoriesWithEmbeddings (categories : List Category) : List Category :=
  categories.filter fun cat => embTruthy cat.embedding

/-- The similarity vector of strategies.py lines 78-90: one similarity per
surviving category, computed by the kernel `simFn` from the message vector
and the category vector. -/
def embSims (simFn : List ℚ → List ℚ → ℚ) (message : Message)
    (categories : List Category) : List ℚ :=
  (categoriesWithEmbeddings categories).map fun cat =>
    simFn (message.embedding.getD []) (cat.embedding.getD [])

/-- `EmbeddingSimilarityStrategy.classify` (strategies.py lines 51-110).
`simFn` abstracts the normalised-dot-product similarity kernel of lines
78-90; everything else follows the source: reject a message without an
embedding, silently drop categories without embeddings, return `[]` when
none remain, otherwise rank by similarity descending and filter by
threshold and `top_n`. -/
def embeddingClassify (simFn : List ℚ → List ℚ → ℚ) (message : Message)
    (categories : List Category) (top_n : ℕ) (threshold : ℚ) :
    Except String (List ClassificationMatch) :=
  if !embTruthy message.embedding then
    .error ("Message " ++ message.id ++ " has no embedding")
  else if (categoriesWithEmbeddings categories).isEmpty then
    .ok []
  else
    .ok (collectMatches message.id threshold top_n (categoriesWithEmbeddings categories)
      (embSims simFn message categories)
      (sortedIndices (embSims simFn message categories)) 0)

/-- `strategies.py CategoryMatchOutput`: one per-category decision of the
LLM provider (0-based category index, membership flag, explanation,
confidence). -/
structure CategoryMatchOutput where
  category_index : Int
  is_in_category : Bool
  explanation : String
  confidence : ℚ
deriving Repr, DecidableEq, Inhabited

/-- `matches.sort(key=lambda m: m.score, reverse=True)` (strategies.py line
221) orders by score descending; Python `list.sort` is stable, as is
insertion sort. -/
def scoreGe (a b : ClassificationMatch) : Prop :=
  b.score ≤ a.score

instance : DecidableRel scoreGe := fun a b =>
  decidable_of_iff (b.score ≤ a.score) Iff.rfl

instance : IsTotal ClassificationMatch scoreGe :=
  ⟨fun a b => le_total b.score a.score⟩

instance : IsTrans ClassificationMatch scoreGe :=
  ⟨fun _ _ _ hab hbc => le_trans hbc hab⟩

/-- The keep-condition of `LLMClassificationStrategy.classify`
(strategies.py lines 206-210): membership flag set, confidence at least the
threshold, and category index inside `[0, len(categories))`. -/
def validDecision (categories : List Category) (threshold : ℚ)
    (m : CategoryMatchOutput) : Bool :=
  m.is_in_category && decide (threshold ≤ m.confidence) &&
    decide (0 ≤ m.category_index) && decide (m.category_index < categories.length)

/-- `LLMClassificationStrategy.classify` (strategies.py lines 165-224).
The provider response (`result.output.matches`) is the `output` argument;
an empty category list short-circuits to `[]` without consulting the
provider.  Kept decisions are mapped to matches, sorted by confidence
descending (Python `list.sort` is stable, which `mergeSort` preserves) and
truncated to `top_n`. -/
def llmClassify (output : List CategoryMatchOutput) (categories : List Category)
    (top_n : ℕ) (threshold : ℚ) : List ClassificationMatch :=
  if categories.isEmpty then []
  else
    let kept := (output.filter (validDecision categories threshold)).map fun m =>
      { category := categories.getD m.category_index.toNat default
        score := m.confidence
        explanation := m.explanation : ClassificationMatch }
    let sorted := kept.insertionSort scoreGe
    sorted.take top_n

/-- `classification_service.py ClassificationResult`: the typed result
returned to callers. -/
structure ClassificationResult where
  message : Message
  matched_categories : List Category
  scores : List ℚ
  explanations : List String
deriving Repr, DecidableEq, Inhabited

/-- The two concrete `ClassificationStrategy` implementations, as a closed
sum.  `embeddingSimilarity` carries the abstracted similarity kernel;
`llm` carries the provider model: what decision list `run_sync` yields for
a given message and category list. -/
inductive Strategy where
  | embeddingSimilarity (simFn : List ℚ → List ℚ → ℚ)
  | llm (respond : Message → List Category → List CategoryMatchOutput)

/-- Dispatch of `self.strategy.classify(...)`. -/
def Strategy.classify : Strategy → Message → List Category → ℕ → ℚ →
    Except String (List ClassificationMatch)
  | .embeddingSimilarity simFn, message, categories, top_n, threshold =>
      embeddingClassify simFn message categories top_n threshold
  | .llm respond, message, categories, top_n, threshold =>
      .ok (llmClassify (respond message categories) categories top_n threshold)

/-- `models.py MessageCategory`: persisted association row (message id,
category id, score, explanation, classified-at timestamp). -/
structure MessageCategory where
  message_id : String
  category_id : Int
  score : ℚ
  explanation : String
  classified_at : ℕ
deriving Repr, DecidableEq, Inhabited

/-- The persistent store visible to the classification service: the
`messages` and `categories` tables plus the `message_categories`
association table. -/
structure DB where
  messages : List Message
  categories : List Category
  assignments : List MessageCategory
deriving Repr, DecidableEq, Inhabited

/-- `MessageManager.get_by_id`. -/
def getMessageById (db : DB) (id : String) : Option Message :=
  db.messages.find? fun m => m.id == id

/-- `CategoryManager.get_all`. -/
def getAllCategories (db : DB) : List Category :=
  db.categories

/-- `ClassificationService` configuration (classification_service.py lines
41-60): a strategy plus `top_n` and `threshold` defaults. -/
structure ClassificationService where
  strategy : Strategy
  top_n : ℕ := 3
  threshold : ℚ := 1/2

/-- `ClassificationService._assign_categories` (classification_service.py
lines 166-199): if the message exists, delete every existing association
row of the message and insert one new row per classification triple, all
committed together.  `now` models `datetime.now(UTC)`. -/
def ClassificationService.assign_categories (db : DB) (message_id : String)
    (classifications : List (Int × ℚ × String)) (now : ℕ) : DB :=
  match getMessageById db message_id with
  | none => db
  | some _ =>
    { db with assignments :=
        db.assignments.filter (fun mc => mc.message_id ≠ message_id) ++
          classifications.map fun c =>
            { message_id := message_id, category_id := c.1, score := c.2.1,
              explanation := c.2.2, classified_at := now } }

/-- The result extraction of classification_service.py lines 106-133: the
matched categories, scores and explanations of the strategy's matches,
packed into a `ClassificationResult`. -/
def mkResult (message : Message) (ms : List ClassificationMatch) : ClassificationResult :=
  { message := message
    matched_categories := ms.map (·.category)
    scores := ms.map (·.score)
    explanations := ms.map (·.explanation) }

/-- `ClassificationService.classify_message` (classification_service.py
lines 62-133): reject a message without an embedding, filter the category
list to those with embeddings and fail when none remain, run the strategy
on the filtered list, optionally persist the assignments, and return the
result together with the (possibly updated) store. -/
def ClassificationService.classify_message (svc : ClassificationService) (db : DB)
    (message : Message) (categories : List Category) (assign : Bool) (now : ℕ) :
    Except String (ClassificationResult × DB) :=
  if !embTruthy message.embedding then
    .error ("Message " ++ message.id ++ " has no embedding")
  else if (categoriesWithEmbeddings categories).isEmpty then
    .error "No categories with embeddings found"
  else
    match svc.strategy.classify message (categoriesWithEmbeddings categories)
        svc.top_n svc.threshold with
    | .error e => .error e
    | .ok ms =>
      .ok (mkResult message ms,
        if assign then
          ClassificationService.assign_categories db message.id
            (ms.map fun m => (m.category.id, m.score, m.explanation)) now
        else db)

/-- `ClassificationService.classify_message_by_id` (classification_service.py
lines 135-164): fetch the message (failing when absent) and the full
category set, then delegate to `classify_message`. -/
def ClassificationService.classify_message_by_id (svc : ClassificationService)
    (db : DB) (message_id : String) (assign : Bool) (now : ℕ) :
    Except String (ClassificationResult × DB) :=
  match getMessageById db message_id with
  | none => .error ("Message with ID " ++ message_id ++ " not found")
  | some message =>
      svc.classify_message db message (getAllCategories db) assign now

/-- The sequential loop of `BootstrapService._classify_messages`
(bootstrap_service.py lines 220-236): classify each id in order, counting
successes; a `ValueError` from `classify_message_by_id` is caught, the
message skipped and the loop continued on the unchanged store. -/
def classifyMessagesLoop (svc : ClassificationService) (now : ℕ) :
    DB → List String → ℕ → ℕ × DB
  | db, [], classified_count => (classified_count, db)
  | db, message_id :: rest, classified_count =>
    match svc.classify_message_by_id db message_id true now with
    | .ok (_, db') => classifyMessagesLoop svc now db' rest (classified_count + 1)
    | .error _ => classifyMessagesLoop svc now db rest classified_count

/-- `BootstrapService._classify_messages` (bootstrap_service.py lines
196-238): run the batch loop from a zero success count and return the
number of successfully classified messages with the final store.  (The
bootstrap instantiates the service with the LLM strategy; the loop itself
is strategy-agnostic.) -/
def BootstrapService.classify_messages (svc : ClassificationService) (db : DB)
    (message_ids : List String) (now : ℕ) : ℕ × DB :=
  classifyMessagesLoop svc now db message_ids 0

/-- The association rows currently persisted for one message — what a
reader of the `message_categories` table sees for that message. -/
def assignmentsFor (db : DB) (message_id : String) : List MessageCategory :=
  db.assignments.filter fun mc => mc.message_id = message_id

/-- Projection of a persisted association row to its (category id, score,
explanation) content, ignoring the timestamp. -/
def rowContent (mc : MessageCategory) : Int × ℚ × String :=
  (mc.category_id, mc.score, mc.explanation)

/-- The (category id, score, explanation) triples of a classification
result, zipped exactly as `classify_message` zips them when persisting. -/
def resultTriples (r : ClassificationResult) : List (Int × ℚ × String) :=
  (r.matched_categories.map (·.id)).zip (r.scores.zip r.explanations)

/-- A concrete similarity kernel for concrete runs: `1` when the two
vectors are equal and `0` otherwise — the values cosine similarity takes
on identical and on orthogonal unit vectors.  It is chosen over an
arithmetic kernel so that concrete runs reduce inside the proof kernel,
where the `Rat` field operations (marked irreducible) do not. -/
def eqSim (a b : List ℚ) : ℚ :=
  if a = b then 1 else 0

/-- The rational `1/2`, given by its constructor so that its numerator and
denominator are literals. -/
def half : ℚ := ⟨1, 2, by decide, by decide⟩

/-- The rational `9/10`. -/
def q910 : ℚ := ⟨9, 10, by decide, by decide⟩

/-- The rational `3/5` (that is, `0.6`). -/
def q35 : ℚ := ⟨3, 5, by decide, by decide⟩

/-- Concrete fixtures for concrete runs. -/
def catX : Category := ⟨1, "X", "office emails", some [1, 0]⟩

def catY : Category := ⟨2, "Y", "personal emails", some [1, 0]⟩

def catZ : Category := ⟨3, "Z", "newsletters", some [0, 1]⟩

def catNoEmb : Category := ⟨4, "W", "uncategorized", none⟩

def msgA : Message :=
  { id := "m1", subject := "hello", sender := "a@x", «to» := ["b@x"],
    embedding := some [1, 0] }

def msgNoEmb : Message :=
  { id := "m2", subject := "hi", sender := "a@x", «to» := ["b@x"],
    embedding := none }

/-- A store holding the two fixture messages, three fixture categories and
one stale association row for `m1`. -/
def dbA : DB :=
  { messages := [msgA, msgNoEmb]
    categories := [catX, catZ, catNoEmb]
    assignments := [⟨"m1", 3, q910, "stale", 0⟩] }

def msgC : Message :=
  { id := "m3", subject := "news", sender := "c@x", «to» := ["b@x"],
    embedding := some [0, 1] }

/-- A three-message store for a batch run in which the middle message lacks
an embedding. -/
def dbB : DB :=
  { messages := [msgA, msgNoEmb, msgC]
    categories := [catX, catZ, catNoEmb]
    assignments := [] }

/-- The fixture embedding-similarity service. -/
def svcEmb : ClassificationService :=
  { strategy := .embeddingSimilarity eqSim, top_n := 3, threshold := half }

/-- A fixture provider response and the LLM service built from it. -/
def respA : Message → List Category → List CategoryMatchOutput := fun _ cats =>
  [⟨0, true, "fits", q910⟩, ⟨(cats.length : Int), true, "hallucinated", 1⟩,
   ⟨1, true, "", q35⟩]

def svcLlm : ClassificationService :=
  { strategy := .llm respA, top_n := 2, threshold := half }

/-- The match, result and stores produced by running `svcEmb` on `m1`
against `dbA` (computed by hand, checked below by kernel reduction). -/
def match1 : ClassificationMatch := ⟨catX, 1, mkExplanation "m1" half "X" 1⟩

def res1 : ClassificationResult := mkResult msgA [match1]

def dbA1 : DB :=
  { messages := dbA.messages
    categories := dbA.categories
    assignments := [⟨"m1", 1, 1, mkExplanation "m1" half "X" 1, 7⟩] }

def dbA2 : DB :=
  { messages := dbA.messages
    categories := dbA.categories
    assignments := [⟨"m1", 1, 1, mkExplanation "m1" half "X" 1, 8⟩] }

/-! ### Lemmas about the embedding-similarity ranking pipeline -/

theorem sortedIndices_pairwise (sims : List ℚ) :
    (sortedIndices sims).Pairwise fun i j => argLe sims j i := by
  unfold sortedIndices argsortAsc
  rw [List.pairwise_reverse]
  exact List.sorted_insertionSort _ _

theorem sortedIndices_pairwise_ge (sims : List ℚ) :
    (sortedIndices sims).Pairwise fun i j => sims.getD j 0 ≤ sims.getD i 0 := by
  refine (sortedIndices_pairwise sims).imp ?_
  rintro i j (h | ⟨h, _⟩)
  · exact le_of_lt h
  · exact le_of_eq h

theorem sortedIndices_perm (sims : List ℚ) :
    List.Perm (sortedIndices sims) (List.range sims.length) :=
  (List.reverse_perm _).trans (List.perm_insertionSort _ _)

theorem mem_sortedIndices_lt (sims : List ℚ) {idx : ℕ}
    (h : idx ∈ sortedIndices sims) : idx < sims.length := by
  have := (sortedIndices_perm sims).mem_iff.mp h
  simpa using this

theorem collectMatches_sublist (mid : String) (th : ℚ) (n : ℕ)
    (cats : List Category) (sims : List ℚ) :
    ∀ (idxs : List ℕ) (k : ℕ),
      List.Sublist (collectMatches mid th n cats sims idxs k)
        (idxs.map (mkEmbMatch mid th cats sims))
  | [], _ => by simp [collectMatches]
  | idx :: rest, k => by
    rw [collectMatches, List.map_cons]
    by_cases h : th ≤ sims.getD idx 0 ∧ k < n
    · rw [if_pos h]
      exact (collectMatches_sublist mid th n cats sims rest (k + 1)).cons₂ _
    · rw [if_neg h]
      exact (collectMatches_sublist mid th n cats sims rest k).cons _

theorem collectMatches_length (mid : String) (th : ℚ) (n : ℕ)
    (cats : List Category) (sims : List ℚ) :
    ∀ (idxs : List ℕ) (k : ℕ),
      (collectMatches mid th n cats sims idxs k).length ≤ n - k
  | [], _ => by simp [collectMatches]
  | idx :: rest, k => by
    rw [collectMatches]
    by_cases h : th ≤ sims.getD idx 0 ∧ k < n
    · rw [if_pos h]
      have := collectMatches_length mid th n cats sims rest (k + 1)
      simp only [List.length_cons]
      omega
    · rw [if_neg h]
      have := collectMatches_length mid th n cats sims rest k
      omega

theorem collectMatches_score (mid : String) (th : ℚ) (n : ℕ)
    (cats : List Category) (sims : List ℚ) :
    ∀ (idxs : List ℕ) (k : ℕ) (m : ClassificationMatch),
      m ∈ collectMatches mid th n cats sims idxs k → th ≤ m.score
  | [], _, m => by simp [collectMatches]
  | idx :: rest, k, m => by
    rw [collectMatches]
    by_cases h : th ≤ sims.getD idx 0 ∧ k < n
    · rw [if_pos h]
      intro hm
      rcases List.mem_cons.mp hm with rfl | hm
      · exact h.1
      · exact collectMatches_score mid th n cats sims rest (k + 1) m hm
    · rw [if_neg h]
      exact collectMatches_score mid th n cats sims rest k m

theorem collectMatches_mem (mid : String) (th : ℚ) (n : ℕ)
    (cats : List Category) (sims : List ℚ) (idxs : List ℕ) (k : ℕ)
    (m : ClassificationMatch) (hm : m ∈ collectMatches mid th n cats sims idxs k) :
    ∃ idx ∈ idxs, m = mkEmbMatch mid th cats sims idx := by
  have := (collectMatches_sublist mid th n cats sims idxs k).mem hm
  rcases List.mem_map.mp this with ⟨idx, hidx, rfl⟩
  exact ⟨idx, hidx, rfl⟩

theorem collectMatches_pairwise (mid : String) (th : ℚ) (n : ℕ)
    (cats : List Category) (sims : List ℚ) (idxs : List ℕ) (k : ℕ)
    (hs : idxs.Pairwise fun i j => sims.getD j 0 ≤ sims.getD i 0) :
    (collectMatches mid th n cats sims idxs k).Pairwise fun a b => b.score ≤ a.score := by
  refine List.Pairwise.sublist (collectMatches_sublist mid th n cats sims idxs k) ?_
  rw [List.pairwise_map]
  exact hs.imp fun h => h

/-! ### Characterisation lemmas for the strategy entry points -/

theorem embeddingClassify_ok {simFn : List ℚ → List ℚ → ℚ} {msg : Message}
    {cats : List Category} {n : ℕ} {th : ℚ} {r : List ClassificationMatch}
    (h : embeddingClassify simFn msg cats n th = .ok r) :
    embTruthy msg.embedding = true ∧
      ((categoriesWithEmbeddings cats).isEmpty = true ∧ r = [] ∨
        r = collectMatches msg.id th n (categoriesWithEmbeddings cats)
          (embSims simFn msg cats) (sortedIndices (embSims simFn msg cats)) 0) := by
  by_cases hm : embTruthy msg.embedding
  · by_cases hc : (categoriesWithEmbeddings cats).isEmpty
    · simp only [embeddingClassify, hm, hc, Bool.not_true, Bool.false_eq_true, if_false,
        if_true, Except.ok.injEq] at h
      exact ⟨hm, Or.inl ⟨hc, h.symm⟩⟩
    · simp only [embeddingClassify, hm, hc, Bool.not_true, Bool.false_eq_true, if_false,
        Except.ok.injEq] at h
      exact ⟨hm, Or.inr h.symm⟩
  · simp [embeddingClassify, hm] at h

theorem validDecision_eq_true {cats : List Category} {th : ℚ} {d : CategoryMatchOutput} :
    validDecision cats th d = true ↔
      d.is_in_category = true ∧ th ≤ d.confidence ∧ 0 ≤ d.category_index ∧
        d.category_index < (cats.length : Int) := by
  simp [validDecision, and_assoc]

theorem llmClassify_length (output : List CategoryMatchOutput) (cats : List Category)
    (n : ℕ) (th : ℚ) :
    (llmClassify output cats n th).length = min n (output.countP (validDecision cats th)) := by
  by_cases hc : cats.isEmpty
  · have hlen : cats.length = 0 := by simpa [List.isEmpty_iff_length_eq_zero] using hc
    have hz : output.countP (validDecision cats th) = 0 := by
      rw [List.countP_eq_zero]
      intro d _
      rw [validDecision_eq_true.not]
      rintro ⟨-, -, h0, hlt⟩
      rw [hlen] at hlt
      omega
    simp [llmClassify, hc, hz]
  · simp only [llmClassify, hc, Bool.false_eq_true, if_false]
    rw [List.length_take, (List.perm_insertionSort scoreGe _).length_eq, List.length_map,
      List.countP_eq_length_filter]

theorem llmClassify_mem {output : List CategoryMatchOutput} {cats : List Category}
    {n : ℕ} {th : ℚ} {m : ClassificationMatch}
    (hm : m ∈ llmClassify output cats n th) :
    ∃ d ∈ output, validDecision cats th d = true ∧
      m = ⟨cats.getD d.category_index.toNat default, d.confidence, d.explanation⟩ := by
  by_cases hc : cats.isEmpty
  · simp [llmClassify, hc] at hm
  · simp only [llmClassify, hc, Bool.false_eq_true, if_false] at hm
    have hm' := (List.take_sublist _ _).mem hm
    rw [List.mem_insertionSort] at hm'
    rcases List.mem_map.mp hm' with ⟨d, hd, rfl⟩
    rcases List.mem_filter.mp hd with ⟨hdo, hdv⟩
    exact ⟨d, hdo, hdv, rfl⟩

theorem llmClassify_sorted (output : List CategoryMatchOutput) (cats : List Category)
    (n : ℕ) (th : ℚ) :
    (llmClassify output cats n th).Pairwise fun a b => b.score ≤ a.score := by
  by_cases hc : cats.isEmpty
  · simp [llmClassify, hc]
  · simp only [llmClassify, hc, Bool.false_eq_true, if_false]
    refine List.Pairwise.sublist (List.take_sublist _ _) ?_
    exact (List.sorted_insertionSort scoreGe _).imp fun h => h

/-! ### Lemmas about the orchestrator and its persistence -/

theorem classify_message_ok {svc : ClassificationService} {db : DB} {msg : Message}
    {cats : List Category} {assign : Bool} {now : ℕ} {r : ClassificationResult} {db' : DB}
    (h : svc.classify_message db msg cats assign now = .ok (r, db')) :
    embTruthy msg.embedding = true ∧ (categoriesWithEmbeddings cats).isEmpty = false ∧
      ∃ ms, svc.strategy.classify msg (categoriesWithEmbeddings cats) svc.top_n
          svc.threshold = .ok ms ∧
        r = mkResult msg ms ∧
        db' = if assign then
            ClassificationService.assign_categories db msg.id
              (ms.map fun m => (m.category.id, m.score, m.explanation)) now
          else db := by
  by_cases hm : embTruthy msg.embedding
  · by_cases hc : (categoriesWithEmbeddings cats).isEmpty
    · simp [ClassificationService.classify_message, hm, hc] at h
    · cases hms : svc.strategy.classify msg (categoriesWithEmbeddings cats) svc.top_n
          svc.threshold with
      | error e => simp [ClassificationService.classify_message, hm, hc, hms] at h
      | ok ms =>
        simp only [ClassificationService.classify_message, hm, hc, hms, Bool.not_true,
          Bool.false_eq_true, if_false, Except.ok.injEq, Prod.mk.injEq] at h
        exact ⟨hm, (Bool.not_eq_true _).mp hc, ms, rfl, h.1.symm, h.2.symm⟩
  · simp [ClassificationService.classify_message, hm] at h

theorem classify_message_by_id_ok {svc : ClassificationService} {db : DB} {id : String}
    {assign : Bool} {now : ℕ} {r : ClassificationResult} {db' : DB}
    (h : svc.classify_message_by_id db id assign now = .ok (r, db')) :
    ∃ msg, getMessageById db id = some msg ∧ msg.id = id ∧
      svc.classify_message db msg (getAllCategories db) assign now = .ok (r, db') := by
  unfold ClassificationService.classify_message_by_id at h
  cases hfind : getMessageById db id with
  | none => rw [hfind] at h; exact absurd h (by simp)
  | some msg =>
    rw [hfind] at h
    have hid : msg.id = id := by
      have := List.find?_some hfind
      simpa using this
    exact ⟨msg, rfl, hid, h⟩

theorem assign_categories_messages (db : DB) (mid : String)
    (rows : List (Int × ℚ × String)) (now : ℕ) :
    (ClassificationService.assign_categories db mid rows now).messages = db.messages := by
  unfold ClassificationService.assign_categories
  cases getMessageById db mid <;> rfl

theorem assign_categories_categories (db : DB) (mid : String)
    (rows : List (Int × ℚ × String)) (now : ℕ) :
    (ClassificationService.assign_categories db mid rows now).categories = db.categories := by
  unfold ClassificationService.assign_categories
  cases getMessageById db mid <;> rfl

theorem assign_categories_self (db : DB) (mid : String)
    (rows : List (Int × ℚ × String)) (now : ℕ)
    (hfound : (getMessageById db mid).isSome = true) :
    assignmentsFor (ClassificationService.assign_categories db mid rows now) mid =
      rows.map fun c => ⟨mid, c.1, c.2.1, c.2.2, now⟩ := by
  unfold ClassificationService.assign_categories
  cases hf : getMessageById db mid with
  | none => rw [hf] at hfound; simp at hfound
  | some m =>
    simp only [assignmentsFor, List.filter_append, List.filter_filter, List.filter_map]
    have h1 : ∀ mc : MessageCategory,
        (decide (mc.message_id = mid) && decide (mc.message_id ≠ mid)) = false := by
      intro mc
      by_cases hmc : mc.message_id = mid <;> simp [hmc]
    rw [List.filter_congr (fun mc _ => h1 mc), List.filter_false]
    simp [Function.comp_def]

theorem assign_categories_other (db : DB) (mid : String)
    (rows : List (Int × ℚ × String)) (now : ℕ) (a : String) (hne : a ≠ mid) :
    assignmentsFor (ClassificationService.assign_categories db mid rows now) a =
      assignmentsFor db a := by
  unfold ClassificationService.assign_categories
  cases hf : getMessageById db mid with
  | none => rfl
  | some m =>
    simp only [assignmentsFor, List.filter_append, List.filter_filter, List.filter_map]
    have h1 : ∀ mc : MessageCategory,
        (decide (mc.message_id = a) && decide (mc.message_id ≠ mid)) =
          decide (mc.message_id = a) := by
      intro mc
      by_cases hmc : mc.message_id = a
      · simp [hmc, hne]
      · simp [hmc]
    rw [List.filter_congr (fun mc _ => h1 mc)]
    have h2 : List.filter ((fun mc : MessageCategory => decide (mc.message_id = a)) ∘
        fun c : Int × ℚ × String =>
          (⟨mid, c.1, c.2.1, c.2.2, now⟩ : MessageCategory)) rows = [] := by
      rw [List.filter_eq_nil_iff]
      intro c _
      simp [Ne.symm hne]
    rw [h2, List.map_nil, List.append_nil]

theorem resultTriples_mkResult (msg : Message) (ms : List ClassificationMatch) :
    resultTriples (mkResult msg ms) =
      ms.map fun m => (m.category.id, m.score, m.explanation) := by
  unfold resultTriples mkResult
  induction ms with
  | nil => rfl
  | cons m ms ih => simpa using ih

theorem classify_message_fst (svc : ClassificationService) (msg : Message)
    (cats : List Category) (db₁ db₂ : DB) (a₁ a₂ : Bool) (n₁ n₂ : ℕ) :
    (svc.classify_message db₂ msg cats a₂ n₂).map Prod.fst =
      (svc.classify_message db₁ msg cats a₁ n₁).map Prod.fst := by
  unfold ClassificationService.classify_message
  by_cases hm : embTruthy msg.embedding
  · by_cases hc : (categoriesWithEmbeddings cats).isEmpty
    · simp [hm, hc]
    · cases hms : svc.strategy.classify msg (categoriesWithEmbeddings cats) svc.top_n
          svc.threshold <;> simp [hm, hc, hms, Except.map]
  · simp [hm]

theorem classify_message_by_id_fst (svc : ClassificationService) (id : String)
    {db₁ db₂ : DB} (hm : db₂.messages = db₁.messages)
    (hc : db₂.categories = db₁.categories) (a₁ a₂ : Bool) (n₁ n₂ : ℕ) :
    (svc.classify_message_by_id db₂ id a₂ n₂).map Prod.fst =
      (svc.classify_message_by_id db₁ id a₁ n₁).map Prod.fst := by
  unfold ClassificationService.classify_message_by_id getMessageById getAllCategories
  rw [hm, hc]
  cases db₁.messages.find? (fun m => m.id == id) with
  | none => rfl
  | some msg => exact classify_message_fst svc msg db₁.categories db₁ db₂ a₁ a₂ n₁ n₂

theorem classify_message_by_id_frame {svc : ClassificationService} {db : DB}
    {id : String} {assign : Bool} {now : ℕ} {r : ClassificationResult} {db' : DB}
    (h : svc.classify_message_by_id db id assign now = .ok (r, db')) :
    db'.messages = db.messages ∧ db'.categories = db.categories := by
  rcases classify_message_by_id_ok h with ⟨msg, -, -, hcm⟩
  rcases classify_message_ok hcm with ⟨-, -, ms, -, -, hdb⟩
  subst hdb
  by_cases ha : assign
  · simp [ha, assign_categories_messages, assign_categories_categories]
  · simp [ha]

theorem classify_message_by_id_rows {svc : ClassificationService} {db : DB}
    {id : String} {now : ℕ} {r : ClassificationResult} {db' : DB}
    (h : svc.classify_message_by_id db id true now = .ok (r, db')) :
    assignmentsFor db' id =
        (resultTriples r).map (fun c => ⟨id, c.1, c.2.1, c.2.2, now⟩) ∧
      ∀ a, a ≠ id → assignmentsFor db' a = assignmentsFor db a := by
  rcases classify_message_by_id_ok h with ⟨msg, hfind, hid, hcm⟩
  rcases classify_message_ok hcm with ⟨-, -, ms, -, hr, hdb⟩
  rw [if_pos rfl] at hdb
  subst hdb hr hid
  constructor
  · rw [resultTriples_mkResult,
      assign_categories_self db msg.id _ now (by rw [hfind]; rfl), List.map_map]
  · intro a ha
    exact assign_categories_other db msg.id _ now a ha

/-! ### Lemmas about the sequential batch driver -/

theorem classifyMessagesLoop_messages (svc : ClassificationService) (now : ℕ) :
    ∀ (ids : List String) (db : DB) (k : ℕ),
      (classifyMessagesLoop svc now db ids k).2.messages = db.messages ∧
        (classifyMessagesLoop svc now db ids k).2.categories = db.categories
  | [], db, k => ⟨rfl, rfl⟩
  | id :: rest, db, k => by
    rw [classifyMessagesLoop]
    cases hcl : svc.classify_message_by_id db id true now with
    | error e => exact classifyMessagesLoop_messages svc now rest db k
    | ok p =>
      obtain ⟨r, db'⟩ := p
      rcases classify_message_by_id_frame hcl with ⟨h1, h2⟩
      rcases classifyMessagesLoop_messages svc now rest db' (k + 1) with ⟨h3, h4⟩
      exact ⟨h3.trans h1, h4.trans h2⟩

theorem classifyMessagesLoop_untouched (svc : ClassificationService) (now : ℕ) :
    ∀ (ids : List String) (db : DB) (k : ℕ) (a : String), a ∉ ids →
      assignmentsFor (classifyMessagesLoop svc now db ids k).2 a = assignmentsFor db a
  | [], db, k, a, _ => rfl
  | id :: rest, db, k, a, ha => by
    have hne : a ≠ id := fun hx => ha (hx ▸ List.mem_cons_self id rest)
    have harest : a ∉ rest := fun hx => ha (List.mem_cons_of_mem id hx)
    rw [classifyMessagesLoop]
    cases hcl : svc.classify_message_by_id db id true now with
    | error e => exact classifyMessagesLoop_untouched svc now rest db k a harest
    | ok p =>
      obtain ⟨r, db'⟩ := p
      rcases classify_message_by_id_rows hcl with ⟨-, hother⟩
      rw [classifyMessagesLoop_untouched svc now rest db' (k + 1) a harest, hother a hne]

theorem isOk_map_fst {e₁ e₂ : Except String (ClassificationResult × DB)}
    (h : e₁.map Prod.fst = e₂.map Prod.fst) : e₁.isOk = e₂.isOk := by
  cases e₁ <;> cases e₂ <;> simp_all [Except.map, Except.isOk, Except.toBool]

theorem map_fst_ok {e : Except String (ClassificationResult × DB)}
    {r : ClassificationResult} (h : e.map Prod.fst = .ok r) :
    ∃ db', e = .ok (r, db') := by
  cases e with
  | error _ => simp [Except.map] at h
  | ok p =>
    obtain ⟨r', db'⟩ := p
    simp [Except.map] at h
    exact ⟨db', by rw [h]⟩

theorem classifyMessagesLoop_spec (svc : ClassificationService) (now : ℕ) :
    ∀ (ids : List String) (db : DB) (k : ℕ),
      (classifyMessagesLoop svc now db ids k).1 =
          k + ids.countP (fun id => (svc.classify_message_by_id db id true now).isOk) ∧
        (ids.Nodup → ∀ id ∈ ids,
          ((svc.classify_message_by_id db id true now).isOk = false →
              assignmentsFor (classifyMessagesLoop svc now db ids k).2 id =
                assignmentsFor db id) ∧
            ∀ r dbx, svc.classify_message_by_id db id true now = .ok (r, dbx) →
              assignmentsFor (classifyMessagesLoop svc now db ids k).2 id =
                (resultTriples r).map fun c => ⟨id, c.1, c.2.1, c.2.2, now⟩)
  | [], db, k => by simp [classifyMessagesLoop]
  | id :: rest, db, k => by
    rw [classifyMessagesLoop]
    cases hcl : svc.classify_message_by_id db id true now with
    | error e =>
      obtain ⟨ihc, ihp⟩ := classifyMessagesLoop_spec svc now rest db k
      refine ⟨?_, ?_⟩
      · rw [ihc, List.countP_cons]
        simp [hcl, Except.isOk, Except.toBool]
      · intro hnd id' hid'
        have hndr : rest.Nodup := (List.nodup_cons.mp hnd).2
        have hidnr : id ∉ rest := (List.nodup_cons.mp hnd).1
        rcases List.mem_cons.mp hid' with rfl | hmem
        · refine ⟨fun _ => ?_, fun r dbx hok => ?_⟩
          · exact classifyMessagesLoop_untouched svc now rest db k id' hidnr
          · rw [hcl] at hok
            exact absurd hok (by simp)
        · exact ihp hndr id' hmem
    | ok p =>
      obtain ⟨r, db'⟩ := p
      obtain ⟨hfm, hfc⟩ := classify_message_by_id_frame hcl
      have hinv : ∀ x, (svc.classify_message_by_id db' x true now).map Prod.fst =
          (svc.classify_message_by_id db x true now).map Prod.fst :=
        fun x => classify_message_by_id_fst svc x hfm hfc true true now now
      obtain ⟨ihc, ihp⟩ := classifyMessagesLoop_spec svc now rest db' (k + 1)
      have hcount : rest.countP
            (fun x => (svc.classify_message_by_id db' x true now).isOk) =
          rest.countP (fun x => (svc.classify_message_by_id db x true now).isOk) :=
        List.countP_congr fun x _ => by rw [isOk_map_fst (hinv x)]
      refine ⟨?_, ?_⟩
      · rw [ihc, hcount, List.countP_cons]
        simp only [hcl, Except.isOk, Except.toBool, if_true]
        omega
      · intro hnd id' hid'
        have hndr : rest.Nodup := (List.nodup_cons.mp hnd).2
        have hidnr : id ∉ rest := (List.nodup_cons.mp hnd).1
        rcases List.mem_cons.mp hid' with rfl | hmem
        · refine ⟨fun hfail => ?_, fun r₀ db₀ hok => ?_⟩
          · rw [hcl] at hfail
            simp [Except.isOk, Except.toBool] at hfail
          · rw [hcl] at hok
            have h2 := Except.ok.inj hok
            cases h2
            rw [classifyMessagesLoop_untouched svc now rest db' (k + 1) id' hidnr]
            exact (classify_message_by_id_rows hcl).1
        · have hne : id' ≠ id := fun hx => hidnr (hx ▸ hmem)
          obtain ⟨ihfail, ihok⟩ := ihp hndr id' hmem
          refine ⟨fun hfail => ?_, fun r₀ db₀ hok => ?_⟩
          · have hfail' : (svc.classify_message_by_id db' id' true now).isOk = false := by
              rw [isOk_map_fst (hinv id')]
              exact hfail
            rw [ihfail hfail']
            exact (classify_message_by_id_rows hcl).2 id' hne
          · have hmf : (svc.classify_message_by_id db' id' true now).map Prod.fst =
                .ok r₀ := by
              rw [hinv id', hok]
              rfl
            rcases map_fst_ok hmf with ⟨db₁, hok'⟩
            exact ihok r₀ db₁ hok'

/-! ### Remaining support lemmas -/

theorem getD_mem_of_lt {l : List Category} {n : ℕ} (h : n < l.length) (d : Category) :
    l.getD n d ∈ l := by
  rw [List.getD_eq_getElem?_getD, List.getElem?_eq_getElem h, Option.getD_some]
  exact List.getElem_mem h

theorem mkExplanation_ne_empty (mid : String) (th : ℚ) (nm : String) (s : ℚ) :
    mkExplanation mid th nm s ≠ "" := by
  intro h
  have hlen := congrArg String.length h
  have h8 : ("Message " : String).length = 8 := rfl
  simp only [mkExplanation, String.length_append, h8] at hlen
  simp at hlen

theorem embeddingClassify_explanation {simFn : List ℚ → List ℚ → ℚ} {msg : Message}
    {cats : List Category} {n : ℕ} {th : ℚ} {r : List ClassificationMatch}
    (h : embeddingClassify simFn msg cats n th = .ok r) :
    ∀ m ∈ r, m.explanation = mkExplanation msg.id th m.category.name m.score := by
  rcases embeddingClassify_ok h with ⟨-, hcase⟩
  rcases hcase with ⟨-, rfl⟩ | rfl
  · simp
  · intro m hm
    rcases collectMatches_mem _ _ _ _ _ _ _ m hm with ⟨idx, -, rfl⟩
    rfl

theorem map_explanation_eq (mid : String) (th : ℚ) (l : List ClassificationMatch)
    (h : ∀ m ∈ l, m.explanation = mkExplanation mid th m.category.name m.score) :
    l.map (·.explanation) =
      List.zipWith (fun c s => mkExplanation mid th c.name s)
        (l.map (·.category)) (l.map (·.score)) := by
  induction l with
  | nil => rfl
  | cons m l ih =>
    simp only [List.map_cons, List.zipWith_cons_cons]
    rw [h m (List.mem_cons_self m l), ih fun x hx => h x (List.mem_cons_of_mem m hx)]

/-! ### Claim theorems -/

/-- Claim C1, counterexample: with a message that has an embedding and a
category list in which no category carries one, the embedding-similarity
strategy's `classify` does not fail — it returns an empty match list
(strategies.py lines 73-75). -/
theorem c1_counterexample :
    embeddingClassify eqSim msgA [catNoEmb] 5 half = .ok [] := rfl

/-- Claim C1 (amended): the strategy-level `classify` returns an empty
match list when no category carries an embedding; the
`NoScoreableCategories` failure (`"No categories with embeddings found"`)
is raised by the orchestrator's `classify_message`, which checks the
filtered category set before invoking the strategy. -/
theorem c1_orchestrator_raises (svc : ClassificationService) (db : DB) (msg : Message)
    (cats : List Category) (assign : Bool) (now : ℕ)
    (hm : embTruthy msg.embedding = true)
    (hc : (categoriesWithEmbeddings cats).isEmpty = true) :
    svc.classify_message db msg cats assign now =
        .error "No categories with embeddings found" ∧
      ∀ simFn n th, embeddingClassify simFn msg cats n th = .ok [] := by
  constructor
  · simp [ClassificationService.classify_message, hm, hc]
  · intro simFn n th
    simp [embeddingClassify, hm, hc]

theorem c1_witness :
    svcEmb.classify_message dbA msgA [catNoEmb] true 7 =
        .error "No categories with embeddings found" ∧
      ∀ simFn n th, embeddingClassify simFn msgA [catNoEmb] n th = .ok [] :=
  c1_orchestrator_raises svcEmb dbA msgA [catNoEmb] true 7 rfl rfl

/-- Claim C2: for every `classify` call of either strategy variant that
returns a match list, the list has length at most `top_n`, every returned
score is at least `threshold`, and the scores are non-increasing. -/
theorem c2_classify_postconditions (s : Strategy) (msg : Message)
    (cats : List Category) (n : ℕ) (th : ℚ) (r : List ClassificationMatch)
    (h : s.classify msg cats n th = .ok r) :
    r.length ≤ n ∧ (∀ m ∈ r, th ≤ m.score) ∧
      r.Pairwise fun a b => b.score ≤ a.score := by
  cases s with
  | embeddingSimilarity simFn =>
    rcases embeddingClassify_ok h with ⟨-, hcase⟩
    rcases hcase with ⟨-, rfl⟩ | rfl
    · simp
    · refine ⟨?_, ?_, ?_⟩
      · simpa using collectMatches_length msg.id th n _ _ (sortedIndices _) 0
      · exact fun m hm' => collectMatches_score _ _ _ _ _ _ _ m hm'
      · exact collectMatches_pairwise _ _ _ _ _ _ _ (sortedIndices_pairwise_ge _)
  | llm respond =>
    have hr : r = llmClassify (respond msg cats) cats n th := by
      simpa [Strategy.classify] using h.symm
    subst hr
    refine ⟨?_, ?_, llmClassify_sorted _ _ _ _⟩
    · rw [llmClassify_length]
      exact Nat.min_le_left _ _
    · intro m hm'
      rcases llmClassify_mem hm' with ⟨d, -, hv, rfl⟩
      exact (validDecision_eq_true.mp hv).2.1

theorem c2_witness :
    ([⟨catX, 1, mkExplanation "m1" half "X" 1⟩] : List ClassificationMatch).length ≤ 3 ∧
      (∀ m ∈ ([⟨catX, 1, mkExplanation "m1" half "X" 1⟩] : List ClassificationMatch),
        half ≤ m.score) ∧
      ([⟨catX, 1, mkExplanation "m1" half "X" 1⟩] : List ClassificationMatch).Pairwise
        fun a b => b.score ≤ a.score :=
  c2_classify_postconditions (.embeddingSimilarity eqSim) msgA [catX, catZ] 3 half
    [⟨catX, 1, mkExplanation "m1" half "X" 1⟩] rfl

/-- Claim C3, counterexample: two categories with numerically equal
similarity (both `1`) appear in the result in the reverse of their input
order (`[catX, catY]` in, `["Y", "X"]` out), because
`np.argsort(similarities)[::-1]` reverses the order of tied candidates. -/
theorem c3_counterexample :
    (embeddingClassify eqSim msgA [catX, catY] 5 half).map
        (fun r => (r.map fun m => m.category.name, r.map fun m => m.score)) =
      .ok (["Y", "X"], [1, 1]) := rfl

/-- Claim C3 (amended): the candidate sort is deterministic but
anti-stable — the ranking is pairwise ordered by similarity descending,
and candidates with numerically equal similarity appear in the reverse of
their input order (the ascending argsort is reversed wholesale). -/
theorem c3_ties_reversed (sims : List ℚ) :
    (sortedIndices sims).Pairwise fun i j =>
      sims.getD j 0 < sims.getD i 0 ∨ (sims.getD i 0 = sims.getD j 0 ∧ j ≤ i) := by
  refine (sortedIndices_pairwise sims).imp ?_
  rintro i j (h | ⟨h, hle⟩)
  · exact Or.inl h
  · exact Or.inr ⟨h.symm, hle⟩

/-- Claim C4: every match returned by the LLM-batch post-processing comes
from a provider decision with the membership flag set, confidence at least
the threshold and an in-range category index (out-of-range decisions are
dropped silently, never raising); the kept decisions are sorted by
confidence descending and truncated to `top_n` (the result length is
exactly `min top_n (number of valid decisions)`). -/
theorem c4_llm_postprocessing (output : List CategoryMatchOutput)
    (cats : List Category) (n : ℕ) (th : ℚ) :
    (∀ m ∈ llmClassify output cats n th,
        ∃ d ∈ output, d.is_in_category = true ∧ th ≤ d.confidence ∧
          0 ≤ d.category_index ∧ d.category_index < (cats.length : Int) ∧
          m.category = cats.getD d.category_index.toNat default ∧
          m.score = d.confidence ∧ m.explanation = d.explanation) ∧
      (llmClassify output cats n th).length =
          min n (output.countP (validDecision cats th)) ∧
      (llmClassify output cats n th).Pairwise fun a b => b.score ≤ a.score := by
  refine ⟨?_, llmClassify_length output cats n th, llmClassify_sorted output cats n th⟩
  intro m hm
  rcases llmClassify_mem hm with ⟨d, hdo, hv, rfl⟩
  rcases validDecision_eq_true.mp hv with ⟨h1, h2, h3, h4⟩
  exact ⟨d, hdo, h1, h2, h3, h4, rfl, rfl, rfl⟩

theorem c4_witness :
    (llmClassify (respA msgA [catX, catZ]) [catX, catZ] 2 half).length =
      min 2 ((respA msgA [catX, catZ]).countP (validDecision [catX, catZ] half)) :=
  (c4_llm_postprocessing (respA msgA [catX, catZ]) [catX, catZ] 2 half).2.1

/-- Claim C9, counterexample: the LLM-batch variant copies the provider's
explanation string into the match unchecked, so a provider decision with
an empty explanation yields a returned match whose explanation is the
empty string. -/
theorem c9_counterexample :
    (llmClassify [⟨0, true, "", q910⟩] [catX] 5 half).map
        (fun m => m.explanation) = [""] := rfl

/-- Claim C9 (amended): every match returned by the embedding-similarity
variant carries a non-empty explanation (the deterministic template); a
match returned by the LLM-batch variant carries exactly the explanation
string of the provider decision it came from, which the code does not
check for non-emptiness. -/
theorem c9_explanations (simFn : List ℚ → List ℚ → ℚ) (msg : Message)
    (cats : List Category) (n : ℕ) (th : ℚ) (r : List ClassificationMatch)
    (output : List CategoryMatchOutput)
    (h : embeddingClassify simFn msg cats n th = .ok r) :
    (∀ m ∈ r, m.explanation ≠ "") ∧
      ∀ m ∈ llmClassify output cats n th, ∃ d ∈ output, m.explanation = d.explanation := by
  constructor
  · intro m hm
    rw [embeddingClassify_explanation h m hm]
    exact mkExplanation_ne_empty _ _ _ _
  · intro m hm
    rcases llmClassify_mem hm with ⟨d, hdo, -, rfl⟩
    exact ⟨d, hdo, rfl⟩

theorem c9_witness : match1.explanation ≠ "" :=
  (c9_explanations eqSim msgA [catX, catZ] 3 half [match1] [] rfl).1 match1
    (List.mem_singleton.mpr rfl)

/-- Claim C5: after a successful `classify_message_by_id` run with
`assign = true`, the persisted association rows of the message are exactly
the (category id, score, explanation) triples of that run's result — every
prior row of the message is gone, the row count equals the new match
count, and rows of other messages are untouched. -/
theorem c5_replace_all (svc : ClassificationService) (db : DB) (id : String)
    (now : ℕ) (r : ClassificationResult) (db' : DB)
    (h : svc.classify_message_by_id db id true now = .ok (r, db')) :
    (assignmentsFor db' id).map rowContent = resultTriples r ∧
      (assignmentsFor db' id).length = r.matched_categories.length ∧
      ∀ a, a ≠ id → assignmentsFor db' a = assignmentsFor db a := by
  obtain ⟨hrows, hother⟩ := classify_message_by_id_rows h
  rcases classify_message_by_id_ok h with ⟨msg, -, -, hcm⟩
  rcases classify_message_ok hcm with ⟨-, -, ms, -, hrr, -⟩
  have hcontent : (assignmentsFor db' id).map rowContent = resultTriples r := by
    rw [hrows, List.map_map]
    exact List.map_id _
  refine ⟨hcontent, ?_, hother⟩
  have hlen := congrArg List.length hcontent
  rw [List.length_map] at hlen
  rw [hlen, hrr, resultTriples_mkResult, List.length_map, mkResult, List.length_map]

theorem c5_witness :
    (assignmentsFor dbA1 "m1").map rowContent = resultTriples res1 ∧
      (assignmentsFor dbA1 "m1").length = res1.matched_categories.length ∧
      ∀ a, a ≠ "m1" → assignmentsFor dbA1 a = assignmentsFor dbA a :=
  c5_replace_all svcEmb dbA "m1" 7 res1 dbA1 rfl

/-- Claim C6: with the embedding-similarity strategy, re-running
`classify_message_by_id` on the unchanged message and category data yields
the same result and the same persisted (category, score, explanation)
content, and every explanation of the run is the deterministic template
built from the message identifier, the threshold, the category name and
the score. -/
theorem c6_idempotent (simFn : List ℚ → List ℚ → ℚ) (n : ℕ) (th : ℚ) (db : DB)
    (id : String) (now now' : ℕ) (r₁ r₂ : ClassificationResult) (db₁ db₂ : DB)
    (h₁ : ClassificationService.classify_message_by_id
      ⟨.embeddingSimilarity simFn, n, th⟩ db id true now = .ok (r₁, db₁))
    (h₂ : ClassificationService.classify_message_by_id
      ⟨.embeddingSimilarity simFn, n, th⟩ db₁ id true now' = .ok (r₂, db₂)) :
    r₂ = r₁ ∧
      (assignmentsFor db₂ id).map rowContent = (assignmentsFor db₁ id).map rowContent ∧
      r₁.explanations = List.zipWith (fun c s => mkExplanation id th c.name s)
        r₁.matched_categories r₁.scores := by
  obtain ⟨hfm, hfc⟩ := classify_message_by_id_frame h₁
  have hinv := classify_message_by_id_fst ⟨.embeddingSimilarity simFn, n, th⟩ id
    hfm hfc true true now now'
  rw [h₂, h₁] at hinv
  have hr : r₂ = r₁ := by simpa [Except.map] using hinv
  refine ⟨hr, ?_, ?_⟩
  · rw [(classify_message_by_id_rows h₂).1, (classify_message_by_id_rows h₁).1, hr,
      List.map_map, List.map_map]
    rfl
  · rcases classify_message_by_id_ok h₁ with ⟨msg, -, hid, hcm⟩
    rcases classify_message_ok hcm with ⟨-, -, ms, hms, hrr, -⟩
    subst hrr hid
    exact map_explanation_eq msg.id th ms (embeddingClassify_explanation hms)

theorem c6_witness :
    res1 = res1 ∧
      (assignmentsFor dbA2 "m1").map rowContent =
        (assignmentsFor dbA1 "m1").map rowContent ∧
      res1.explanations = List.zipWith (fun c s => mkExplanation "m1" half c.name s)
        res1.matched_categories res1.scores :=
  c6_idempotent eqSim 3 half dbA "m1" 7 8 res1 res1 dbA1 dbA2 rfl rfl

/-- Claim C7: the sequential batch driver catches every per-item failure —
it returns a count and a store rather than propagating an error, the count
is the number of ids whose classification succeeds, a failed message's
rows are left untouched, and every successfully classified message's rows
are committed (equal to that run's triples) in the final store. -/
theorem c7_batch (svc : ClassificationService) (db : DB) (ids : List String) (now : ℕ) :
    (BootstrapService.classify_messages svc db ids now).1 =
        ids.countP (fun id => (svc.classify_message_by_id db id true now).isOk) ∧
      (BootstrapService.classify_messages svc db ids now).2.messages = db.messages ∧
      (BootstrapService.classify_messages svc db ids now).2.categories = db.categories ∧
      (ids.Nodup → ∀ id ∈ ids,
        ((svc.classify_message_by_id db id true now).isOk = false →
            assignmentsFor (BootstrapService.classify_messages svc db ids now).2 id =
              assignmentsFor db id) ∧
          ∀ r dbx, svc.classify_message_by_id db id true now = .ok (r, dbx) →
            assignmentsFor (BootstrapService.classify_messages svc db ids now).2 id =
              (resultTriples r).map fun c => ⟨id, c.1, c.2.1, c.2.2, now⟩) := by
  obtain ⟨h1, h2⟩ := classifyMessagesLoop_spec svc now ids db 0
  obtain ⟨h3, h4⟩ := classifyMessagesLoop_messages svc now ids db 0
  exact ⟨by simpa using h1, h3, h4, h2⟩

theorem c7_witness :
    assignmentsFor (BootstrapService.classify_messages svcEmb dbB
        ["m1", "m2", "m3"] 7).2 "m2" = assignmentsFor dbB "m2" :=
  (((c7_batch svcEmb dbB ["m1", "m2", "m3"] 7).2.2.2 (by decide) "m2"
    (by decide)).1) rfl

/-- Claim C8: with `assign = false` the strategy still runs and its result
is returned, but the store is left completely unchanged — both for
`classify_message` and for `classify_message_by_id`. -/
theorem c8_preview_no_persistence (svc : ClassificationService) (db : DB)
    (msg : Message) (cats : List Category) (id : String) (now : ℕ)
    (r : ClassificationResult) (db' : DB) :
    (svc.classify_message db msg cats false now = .ok (r, db') →
        db' = db ∧ ∃ ms, svc.strategy.classify msg (categoriesWithEmbeddings cats)
          svc.top_n svc.threshold = .ok ms ∧ r = mkResult msg ms) ∧
      (svc.classify_message_by_id db id false now = .ok (r, db') → db' = db) := by
  constructor
  · intro h
    rcases classify_message_ok h with ⟨-, -, ms, hms, hrr, hdb⟩
    rw [if_neg (by simp)] at hdb
    exact ⟨hdb, ms, hms, hrr⟩
  · intro h
    rcases classify_message_by_id_ok h with ⟨msg', -, -, hcm⟩
    rcases classify_message_ok hcm with ⟨-, -, ms, -, -, hdb⟩
    rw [if_neg (by simp)] at hdb
    exact hdb

theorem c8_witness : dbA = dbA :=
  (c8_preview_no_persistence svcEmb dbA msgA [] "m1" 7 res1 dbA).2 rfl

/-- Claim C10: the orchestrator filters the category list down to
categories carrying an embedding before invoking whichever strategy is
configured, and errors when none carries one; consequently the LLM-batch
strategy, when driven through the orchestrator, only ever yields matches
whose category carries an embedding. -/
theorem c10_llm_only_embedded (respond : Message → List Category →
      List CategoryMatchOutput) (n : ℕ) (th : ℚ) (db : DB) (msg : Message)
    (cats : List Category) (assign : Bool) (now : ℕ) :
    (∀ svc : ClassificationService, (categoriesWithEmbeddings cats).isEmpty = true →
        embTruthy msg.embedding = true →
        svc.classify_message db msg cats assign now =
          .error "No categories with embeddings found") ∧
      ∀ r db', ClassificationService.classify_message ⟨.llm respond, n, th⟩ db msg cats
          assign now = .ok (r, db') →
        ∀ c ∈ r.matched_categories,
          c ∈ categoriesWithEmbeddings cats ∧ embTruthy c.embedding = true := by
  constructor
  · intro svc hc hm
    simp [ClassificationService.classify_message, hm, hc]
  · intro r db' h c hcmem
    rcases classify_message_ok h with ⟨-, -, ms, hms, hrr, -⟩
    subst hrr
    rcases List.mem_map.mp hcmem with ⟨m, hm', rfl⟩
    have hms' : ms = llmClassify (respond msg (categoriesWithEmbeddings cats))
        (categoriesWithEmbeddings cats) n th := by
      simpa [Strategy.classify] using hms.symm
    rw [hms'] at hm'
    rcases llmClassify_mem hm' with ⟨d, -, hv, rfl⟩
    rcases validDecision_eq_true.mp hv with ⟨-, -, h3, h4⟩
    have hlt : d.category_index.toNat < (categoriesWithEmbeddings cats).length := by
      omega
    have hmem := getD_mem_of_lt hlt default
    exact ⟨hmem, (List.mem_filter.mp hmem).2⟩

theorem c10_witness :
    ClassificationService.classify_message ⟨.llm respA, 2, half⟩ dbA msgA [catNoEmb]
      true 7 = .error "No categories with embeddings found" :=
  (c10_llm_only_embedded respA 2 half dbA msgA [catNoEmb] true 7).1
    ⟨.llm respA, 2, half⟩ rfl rfl

end ExtraForever
